import Mathlib

/-!
A verification development for the task-generation core of `gzip-up`:
`src/gzip_up/file_operations.py` (task chunker, plain task-file writer,
local threaded executor), `src/gzip_up/main.py` (suffix validator,
output-collision guard) and `src/gzip_up/slurm_operations.py` (Slurm
script emitter).

Modelling conventions:
* The filesystem is a snapshot predicate `gz : String → Bool` telling
  whether a path exists on disk (`os.path.exists`); the code only queries
  it for `.gz` counterparts while writing, and nothing creates files
  concurrently, so a fixed predicate is faithful.
* Writing a file is modelled by returning the list of lines written.
* The outcome of running the external `gzip` binary on a path is a
  predicate `gzipOk : String → Bool`; the threaded executor merges
  per-file results after a join, so its counters are order-independent
  and are modelled as counts over the dispatched list.
* Python `int` division `(a + b - 1) // b` on nonnegative operands is
  `Nat` division; progress printing and log strings are kept only where
  a claim mentions them.
-/

namespace GzipUp

/-! ## Consecutive chunking

The Python loop `for i in range(0, total_files, commands_per_job):
chunk = files[i:i + commands_per_job]` (file_operations.py, line 118)
walks the list in consecutive groups of `commands_per_job` elements,
the last group possibly shorter. -/

/-- Structural worker for `chunksOf`: `fuel` bounds the recursion depth
(any bound of at least `l.length` gives the same value, see
`chunksOfAux_congr`), keeping the definition kernel-reducible. -/
def chunksOfAux (k : Nat) : Nat → List α → List (List α)
  | _, [] => []
  | 0, _ :: _ => []
  | fuel + 1, a :: t =>
    if k == 0 then []
    else ((a :: t).take k) :: chunksOfAux k fuel ((a :: t).drop k)

/-- Consecutive groups of `k` elements of `l`, in order, the last group
possibly shorter; `[]` when `l` is empty (the Python `range` is empty) or
`k = 0` (the Python slice loop would not terminate; never reached, since
`commands_per_job ≥ 1`). -/
def chunksOf (k : Nat) (l : List α) : List (List α) :=
  chunksOfAux k l.length l

/-- The fuel does not matter once it covers the list length. -/
theorem chunksOfAux_congr (k : Nat) : ∀ (f₁ f₂ : Nat) (l : List α),
    l.length ≤ f₁ → l.length ≤ f₂ → chunksOfAux k f₁ l = chunksOfAux k f₂ l
  | f₁, f₂, [], _, _ => by cases f₁ <;> cases f₂ <;> rfl
  | 0, _, a :: t, h₁, _ => by simp at h₁
  | _ + 1, 0, a :: t, _, h₂ => by simp at h₂
  | f₁ + 1, f₂ + 1, a :: t, h₁, h₂ => by
    simp only [chunksOfAux]
    rcases Nat.eq_zero_or_pos k with hk | hk
    · simp [hk]
    · have hne : ¬((k == 0) = true) := by
        simp only [beq_iff_eq]
        omega
      rw [if_neg hne, if_neg hne,
        chunksOfAux_congr k f₁ f₂ ((a :: t).drop k)
          (by simp only [List.length_drop, List.length_cons] at *; omega)
          (by simp only [List.length_drop, List.length_cons] at *; omega)]

theorem chunksOf_nil (k : Nat) : chunksOf k ([] : List α) = [] := rfl

theorem chunksOf_cons_eq (k : Nat) (l : List α) (hk : 0 < k) (hl : l ≠ []) :
    chunksOf k l = l.take k :: chunksOf k (l.drop k) := by
  match l, hl with
  | a :: t, _ =>
    show chunksOfAux k (t.length + 1) (a :: t) = _
    simp only [chunksOfAux]
    have hne : ¬((k == 0) = true) := by
      simp only [beq_iff_eq]
      omega
    rw [if_neg hne,
      chunksOfAux_congr k t.length ((a :: t).drop k).length ((a :: t).drop k)
        (by simp only [List.length_drop, List.length_cons]; omega) le_rfl]
    rfl

/-- The chunks concatenate back to the original list: chunking is an
order-preserving partition. -/
theorem join_chunksOf (k : Nat) (hk : 0 < k) (l : List α) :
    (chunksOf k l).flatten = l := by
  suffices H : ∀ n (l : List α), l.length ≤ n → (chunksOf k l).flatten = l from
    H l.length l le_rfl
  intro n
  induction n with
  | zero =>
    intro l hl
    have : l = [] := List.eq_nil_of_length_eq_zero (Nat.le_zero.mp hl)
    subst this
    simp [chunksOf_nil]
  | succ n ih =>
    intro l hl
    rcases eq_or_ne l [] with rfl | hne
    · simp [chunksOf_nil]
    · have h0 : l.length ≠ 0 := fun hh => hne (List.eq_nil_of_length_eq_zero hh)
      rw [chunksOf_cons_eq k l hk hne, List.flatten_cons,
        ih (l.drop k) (by simp only [List.length_drop]; omega)]
      exact List.take_append_drop k l

/-- Every chunk is nonempty and holds at most `k` elements. -/
theorem mem_chunksOf (k : Nat) (hk : 0 < k) (l : List α) (c : List α)
    (hc : c ∈ chunksOf k l) : c ≠ [] ∧ c.length ≤ k := by
  suffices H : ∀ n (l : List α), l.length ≤ n →
      ∀ c ∈ chunksOf k l, c ≠ [] ∧ c.length ≤ k from H l.length l le_rfl c hc
  intro n
  induction n with
  | zero =>
    intro l hl c hc
    have : l = [] := List.eq_nil_of_length_eq_zero (Nat.le_zero.mp hl)
    subst this
    rw [chunksOf_nil] at hc
    cases hc
  | succ n ih =>
    intro l hl c hc
    rcases eq_or_ne l [] with rfl | hne
    · rw [chunksOf_nil] at hc; cases hc
    · have h0 : l.length ≠ 0 := fun hh => hne (List.eq_nil_of_length_eq_zero hh)
      rw [chunksOf_cons_eq k l hk hne] at hc
      rcases List.mem_cons.mp hc with hc | hc
      · subst hc
        refine ⟨?_, by rw [List.length_take]; omega⟩
        have : 0 < (l.take k).length := by rw [List.length_take]; omega
        exact List.ne_nil_of_length_pos this
      · exact ih (l.drop k) (by simp only [List.length_drop]; omega) c hc

/-- A chunk that is not the final one holds exactly `k` elements. -/
theorem chunksOf_full (k : Nat) (hk : 0 < k) (l : List α)
    (pre : List (List α)) (g : List α) (suf : List (List α))
    (h : chunksOf k l = pre ++ g :: suf) (hsuf : suf ≠ []) : g.length = k := by
  suffices H : ∀ n (l : List α), l.length ≤ n → ∀ pre g suf,
      chunksOf k l = pre ++ g :: suf → suf ≠ [] → g.length = k from
    H l.length l le_rfl pre g suf h hsuf
  intro n
  induction n with
  | zero =>
    intro l hl pre g suf h hsuf
    have : l = [] := List.eq_nil_of_length_eq_zero (Nat.le_zero.mp hl)
    subst this
    rw [chunksOf_nil] at h
    exact absurd h.symm (List.append_ne_nil_of_right_ne_nil pre (by simp))
  | succ n ih =>
    intro l hl pre g suf h hsuf
    rcases eq_or_ne l [] with rfl | hne
    · rw [chunksOf_nil] at h
      exact absurd h.symm (List.append_ne_nil_of_right_ne_nil pre (by simp))
    · have h0 : l.length ≠ 0 := fun hh => hne (List.eq_nil_of_length_eq_zero hh)
      rw [chunksOf_cons_eq k l hk hne] at h
      match pre, h with
      | [], h =>
        have hinj := (List.cons.injEq _ _ _ _).mp (by simpa using h)
        have hdrop : l.drop k ≠ [] := by
          intro hd
          apply hsuf
          rw [← hinj.2, hd, chunksOf_nil]
        have hld : (l.drop k).length ≠ 0 :=
          fun hh => hdrop (List.eq_nil_of_length_eq_zero hh)
        have hlen : k < l.length := by
          have := List.length_drop k l
          omega
        rw [← hinj.1, List.length_take]
        omega
      | p :: pre', h =>
        have hinj := (List.cons.injEq _ _ _ _).mp (by simpa using h)
        exact ih (l.drop k) (by simp only [List.length_drop]; omega)
          pre' g suf hinj.2 hsuf

/-- Number of chunks: the ceiling of `l.length / k`. -/
theorem length_chunksOf (k : Nat) (hk : 0 < k) (l : List α) :
    (chunksOf k l).length = (l.length + k - 1) / k := by
  suffices H : ∀ n (l : List α), l.length ≤ n →
      (chunksOf k l).length = (l.length + k - 1) / k from H l.length l le_rfl
  intro n
  induction n with
  | zero =>
    intro l hl
    have : l = [] := List.eq_nil_of_length_eq_zero (Nat.le_zero.mp hl)
    subst this
    rw [chunksOf_nil]
    simp only [List.length_nil]
    exact (Nat.div_eq_of_lt (by omega)).symm
  | succ n ih =>
    intro l hl
    rcases eq_or_ne l [] with rfl | hne
    · rw [chunksOf_nil]
      simp only [List.length_nil]
      exact (Nat.div_eq_of_lt (by omega)).symm
    · have h0 : l.length ≠ 0 := fun hh => hne (List.eq_nil_of_length_eq_zero hh)
      rw [chunksOf_cons_eq k l hk hne, List.length_cons,
        ih (l.drop k) (by simp only [List.length_drop]; omega)]
      simp only [List.length_drop]
      rcases le_or_lt l.length k with hle | hlt
      · have h1 : l.length - k = 0 := by omega
        rw [h1]
        have h2 : (0 + k - 1) / k = 0 := Nat.div_eq_of_lt (by omega)
        have h3 : l.length + k - 1 = (l.length - 1) + k := by omega
        rw [h2, h3, Nat.add_div_right _ hk]
        have : (l.length - 1) / k = 0 := Nat.div_eq_of_lt (by omega)
        omega
      · have h3 : l.length + k - 1 = (l.length - k + k - 1) + k := by omega
        rw [h3, Nat.add_div_right _ hk]

/-! ## file_operations.py — task chunker -/

/-- Python `s.endswith(suffix)`, character-wise (`String.endsWith` is the
same function read on bytes, but its byte-position arithmetic does not
reduce inside the kernel, so the character-list form is used
throughout). -/
def strEndsWith (s suffix : String) : Bool :=
  suffix.data.isSuffixOf s.data

/-- Python `s.startswith(pre)`, character-wise. -/
def strStartsWith (s pre : String) : Bool :=
  pre.data.isPrefixOf s.data

/-- Python `s.strip()`, character-wise: whitespace removed from both
ends. -/
def strTrim (s : String) : String :=
  String.mk
    (((s.data.dropWhile Char.isWhitespace).reverse.dropWhile
        Char.isWhitespace).reverse)

/-- Eligibility of a path `p` for compression, file_operations.py lines
122–135: a file already ending in `.gz` is skipped (self-skip), then a file
whose `.gz` counterpart exists on disk (`gz`) is skipped. -/
def eligibleB (gz : String → Bool) (p : String) : Bool :=
  !(strEndsWith p ".gz") && !(gz (p ++ ".gz"))

/-- The per-file command string, file_operations.py lines 138 and 222:
the Python f-string `gzip '{file_path}'` interpolates the path between
single quotes with no escaping. -/
def gzipCommand (p : String) : String :=
  "gzip '" ++ p ++ "'"

/-- The `while actual_jobs > max_jobs and iterations < 100` loop of
file_operations.py lines 88–93: increment `commands_per_job` until the
implied job count is within `maxJobs`, with a safety cap of 100 rounds.
`fuel` is `100 - iterations`. -/
def chunkLoop (totalFiles maxJobs : Nat) : Nat → Nat → Nat
  | cpj, 0 => cpj
  | cpj, fuel + 1 =>
    if maxJobs < (totalFiles + cpj - 1) / cpj then
      chunkLoop totalFiles maxJobs (cpj + 1) fuel
    else cpj

/-- The final `commands_per_job` of file_operations.py lines 80–93:
the initial `max(1, (total + max_jobs - 1) // max_jobs)` followed by the
bounded correction loop. -/
def chunkCommandsPerJob (total maxJobs : Nat) : Nat :=
  chunkLoop total maxJobs (max 1 ((total + maxJobs - 1) / maxJobs)) 100

/-- The final `actual_jobs` of file_operations.py line 99:
`min(max_jobs, (total + commands_per_job - 1) // commands_per_job)`. -/
def chunkActualJobs (total maxJobs : Nat) : Nat :=
  min maxJobs
    ((total + chunkCommandsPerJob total maxJobs - 1) /
      chunkCommandsPerJob total maxJobs)

/-- The per-slice filtering and line formation of file_operations.py
lines 119–144: each slice keeps its eligible paths; a slice left with no
command writes no line (`if chunk_commands:`). -/
def lineChunks (gz : String → Bool) (chunks : List (List String)) :
    List (List String) :=
  chunks.filterMap fun c =>
    let e := c.filter (eligibleB gz)
    if e.isEmpty then none else some e

/-- What `generate_chunked_task_file` computes and writes. `taskChunks`
holds, line by line, the eligible paths whose commands make up that line;
`renderedLines` the actual text lines. -/
structure ChunkedResult where
  taskChunks : List (List String)
  renderedLines : List String
  skippedAlreadyCompressed : Nat
  skippedExistingGz : Nat
  skippedMessages : List String
  actualJobs : Nat
  commandsPerJob : Nat

/-- Shallow embedding of `generate_chunked_task_file(files, output_file,
max_jobs)` (file_operations.py lines 57–177).

* lines 73–99: `commands_per_job = max(1, (total + max_jobs - 1) //
  max_jobs)`, the bounded correction loop, then
  `actual_jobs = min(max_jobs, (total + commands_per_job - 1) //
  commands_per_job)`.
* lines 107–110: if `actual_jobs > max_jobs` the function returns
  `(actual_jobs, 0)` before writing anything (the error branch).
* lines 117–147: the file list is walked in consecutive slices of
  `commands_per_job` (see `chunksOf`); within a slice, self-skips and
  counterpart-skips are dropped (`eligibleB`) and the surviving commands
  are joined with `"; "`; a slice with no surviving command writes no
  line. The skip counters and the skip log visit each file exactly once
  across the slices (`join_chunksOf`), so they are counted over `files`.
* line 177: the function returns `(actual_jobs, commands_per_job)`;
  both are recorded in the result. -/
def generate_chunked_task_file (files : List String) (gz : String → Bool)
    (maxJobs : Nat) : ChunkedResult :=
  let cpj := chunkCommandsPerJob files.length maxJobs
  let actualJobs := chunkActualJobs files.length maxJobs
  if maxJobs < actualJobs then
    { taskChunks := [], renderedLines := [], skippedAlreadyCompressed := 0,
      skippedExistingGz := 0, skippedMessages := [],
      actualJobs := actualJobs, commandsPerJob := 0 }
  else
    let taskChunks := lineChunks gz (chunksOf cpj files)
    { taskChunks := taskChunks
      renderedLines := taskChunks.map fun e =>
        String.intercalate "; " (e.map gzipCommand)
      skippedAlreadyCompressed :=
        (files.filter fun p => strEndsWith p ".gz").length
      skippedExistingGz :=
        (files.filter fun p => !(strEndsWith p ".gz") && gz (p ++ ".gz")).length
      skippedMessages :=
        (files.filter fun p => !(strEndsWith p ".gz") && gz (p ++ ".gz")).map
          fun p => "file " ++ p ++ " skipped because " ++ p ++
            ".gz already exists"
      actualJobs := actualJobs
      commandsPerJob := cpj }

/-- The lines `generate_task_file` writes in the non-chunked path
(file_operations.py lines 203–227): one `gzip` command per eligible file,
in input order. -/
def generate_task_file_lines (files : List String) (gz : String → Bool) :
    List String :=
  files.filterMap fun p =>
    if eligibleB gz p then some (gzipCommand p) else none

/-! ## file_operations.py — local executor -/

/-- Thread-count resolution of `execute_gzip_local` (lines 297–303):
`0` means auto-detect (`min(cpu_count, 8)`), anything below 1 is clamped
to 1. -/
def resolveThreads (numThreads : Int) (cpuCount : Nat) : Nat :=
  if numThreads = 0 then min cpuCount 8
  else if numThreads < 1 then 1
  else numThreads.toNat

/-- The aggregate result dictionary of `execute_gzip_local`
(lines 316–330). -/
structure LocalResult where
  total : Nat
  compressed : Nat
  skipped : Nat
  errors : Nat
  error_files : List (String × String)

/-- Shallow embedding of `execute_gzip_local(files, num_threads)`
(file_operations.py lines 286–403). `gzipOk p` tells whether the external
`gzip p` call succeeds, `gzipErr p` the error text recorded on failure.
Files already ending in `.gz` are filtered out before dispatch and counted
as skipped (lines 308–309); every dispatched file lands in `compressed` or
in `errors`/`error_files` (lines 380–387). The thread pool only bounds
parallelism; results are merged after a join, so the counters do not
depend on `numThreads` or `cpuCount`. -/
def execute_gzip_local (files : List String) (gzipOk : String → Bool)
    (gzipErr : String → String) (numThreads : Int) (cpuCount : Nat) :
    LocalResult :=
  let uncompressed := files.filter fun f => !(strEndsWith f ".gz")
  let skipped := files.length - uncompressed.length
  if uncompressed.isEmpty then
    { total := files.length, compressed := 0, skipped := skipped,
      errors := 0, error_files := [] }
  else
    { total := files.length
      compressed := (uncompressed.filter gzipOk).length
      skipped := skipped
      errors := (uncompressed.filter fun f => !(gzipOk f)).length
      error_files := (uncompressed.filter fun f => !(gzipOk f)).map
        fun f => (f, gzipErr f) }

/-! ## main.py — suffix validator and output-collision guard -/

/-- Suffix normalization (main.py lines 89–92): prefix with a dot when the
dot is missing. -/
def normalizeSuffix (s : String) : String :=
  if strStartsWith s "." then s else "." ++ s

/-- The rejected compressed-format suffixes (main.py line 101). -/
def compressionFormats : List String :=
  [".gz", ".bz2", ".xz", ".zip", ".tar", ".7z", ".rar"]

/-- The loop body of `validate_suffixes` (main.py lines 87–107), with the
accumulated set determinized as an insertion-ordered duplicate-free list
(Python `set.add`). The `.gz` check (line 95) precedes the general
compressed-format check (line 102); either raises `ValueError`, modelled
as `Except.error` with the message text. -/
def validateSuffixesGo : List String → List String → Except String (List String)
  | [], acc => .ok acc
  | s :: rest, acc =>
    let ns := normalizeSuffix s
    if ns = ".gz" then
      .error ("[ERROR] Invalid suffix '" ++ s ++
        "': Cannot compress already compressed .gz files")
    else if compressionFormats.contains ns then
      .error ("[ERROR] Invalid suffix '" ++ s ++
        "': File appears to already be compressed")
    else
      validateSuffixesGo rest (if acc.contains ns then acc else acc ++ [ns])

/-- Shallow embedding of `validate_suffixes(suffixes)` (main.py
lines 72–109). -/
def validate_suffixes (suffixes : List String) : Except String (List String) :=
  validateSuffixesGo suffixes []

/-- What the modelled slice of `main` does: an exit code when it stops
early, and the files it writes (in order) when it proceeds. -/
structure MainOutcome where
  exitCode : Option Nat
  writes : List String

/-- The guard section of `main` (main.py lines 281–334): with the scan
finished, an empty file list exits 0 (line 283); an existing output task
file exits 1 before anything is written (lines 292–296); with `--slurm`,
an existing `gzip_slurm.sh` likewise exits 1 (lines 299–303); only then
does the run proceed to write the task file (line 332). `fsExists` is the
`os.path.exists` snapshot at run start. -/
def main_output_guard (files : List String) (fsExists : String → Bool)
    (slurm : Bool) (output : String) : MainOutcome :=
  if files.isEmpty then { exitCode := some 0, writes := [] }
  else if fsExists output then { exitCode := some 1, writes := [] }
  else if slurm && fsExists "gzip_slurm.sh" then
    { exitCode := some 1, writes := [] }
  else { exitCode := none, writes := [output] }

/-! ## slurm_operations.py — script emitter -/

/-- The Slurm parameter table after defaults are applied
(slurm_operations.py lines 29–38). `nodes` has no default and no
`#SBATCH` line of its own; it is kept as the stray dict key the update
loop can add. -/
structure SlurmParams where
  job_name : String
  ntasks : String
  cpus_per_task : String
  mem_per_cpu : String
  partition : String
  time : String
  output : String
  error : String
  nodes : Option String

/-- The `defaults` dict of `generate_slurm_script`
(slurm_operations.py lines 29–38). -/
def slurmDefaults : SlurmParams :=
  { job_name := "gzip_compression"
    ntasks := "1"
    cpus_per_task := "4"
    mem_per_cpu := "2G"
    partition := "short"
    time := "02:00:00"
    output := "gzip_%A_%a.out"
    error := "gzip_%A_%a.err"
    nodes := none }

/-- The sparse user-supplied Slurm parameter map, with the keys `main`
passes (main.py lines 392–405; `None` values are removed there, hence
`Option`). -/
structure SlurmArgs where
  partition : Option String
  nodes : Option String
  ntasks : Option String
  cpus_per_task : Option String
  mem : Option String
  mem_per_cpu : Option String
  time : Option String
  output : Option String
  error : Option String

/-- A wholly unset parameter map. -/
def noSlurmArgs : SlurmArgs :=
  { partition := none, nodes := none, ntasks := none, cpus_per_task := none,
    mem := none, mem_per_cpu := none, time := none, output := none,
    error := none }

/-- The override loop of `generate_slurm_script` (slurm_operations.py
lines 41–58): each supplied key overwrites its entry of the defaults
table; the keys are distinct, so the sequential dict updates are the
simultaneous field updates below. The `mem` key (lines 44–51) instead
converts a total-memory string to `mem_per_cpu` with Python float
arithmetic; that branch is outside this model, and the theorems that use
`applySlurmArgs` assume `mem` is unset. -/
def applySlurmArgs (d : SlurmParams) (a : SlurmArgs) : SlurmParams :=
  { job_name := d.job_name
    ntasks := a.ntasks.getD d.ntasks
    cpus_per_task := a.cpus_per_task.getD d.cpus_per_task
    mem_per_cpu := a.mem_per_cpu.getD d.mem_per_cpu
    partition := a.partition.getD d.partition
    time := a.time.getD d.time
    output := a.output.getD d.output
    error := a.error.getD d.error
    nodes := match a.nodes with | some v => some v | none => d.nodes }

/-- The array size `generate_slurm_script` uses (slurm_operations.py
lines 60–62): the count of input files not already ending in `.gz`,
re-derived from the original file list. -/
def slurmArraySize (files : List String) : Nat :=
  (files.filter fun f => !(strEndsWith f ".gz")).length

/-- The `#SBATCH` directive lines of the emitted script, in the order
written (slurm_operations.py lines 89–98). -/
def slurmScriptDirectives (files : List String) (a : SlurmArgs) :
    List String :=
  let p := applySlurmArgs slurmDefaults a
  ["#!/bin/bash",
   "#SBATCH --job-name=" ++ p.job_name,
   "#SBATCH --ntasks=" ++ p.ntasks,
   "#SBATCH --cpus-per-task=" ++ p.cpus_per_task,
   "#SBATCH --mem-per-cpu=" ++ p.mem_per_cpu,
   "#SBATCH --array=1-" ++ toString (slurmArraySize files),
   "#SBATCH --partition=" ++ p.partition,
   "#SBATCH --time=" ++ p.time,
   "#SBATCH --output=" ++ p.output,
   "#SBATCH --error=" ++ p.error]

/-- Counting the effective lines of an on-disk task file, as `main` does
after generation (main.py line 344) and as `generate_task_file` does to
verify a chunked file (file_operations.py line 269): non-empty lines not
starting with `#` after stripping. -/
def taskFileLineCount (lines : List String) : Nat :=
  (lines.filter fun l =>
    !(strTrim l == "") && !(strStartsWith (strTrim l) "#")).length

/-! ## Arithmetic of the chunk calculation -/

/-- The correction loop leaves `cpj` alone once the implied job count is
within the limit. -/
theorem chunkLoop_eq_self {total maxJobs cpj : Nat}
    (h : ¬ maxJobs < (total + cpj - 1) / cpj) (fuel : Nat) :
    chunkLoop total maxJobs cpj fuel = cpj := by
  cases fuel <;> simp [chunkLoop, h]

/-- The correction loop never decreases `cpj`. -/
theorem le_chunkLoop (total maxJobs : Nat) :
    ∀ fuel cpj, cpj ≤ chunkLoop total maxJobs cpj fuel
  | 0, cpj => le_rfl
  | fuel + 1, cpj => by
    simp only [chunkLoop]
    split
    · exact le_trans (Nat.le_succ cpj) (le_chunkLoop total maxJobs fuel (cpj + 1))
    · exact le_rfl

theorem chunkCommandsPerJob_pos (total maxJobs : Nat) :
    0 < chunkCommandsPerJob total maxJobs :=
  lt_of_lt_of_le (lt_of_lt_of_le Nat.zero_lt_one (le_max_left 1 _))
    (le_chunkLoop total maxJobs 100 _)

/-- Ceiling division reaches the numerator: `n ≤ C * ⌈n / C⌉`. -/
theorem le_mul_ceil_div (C n : Nat) (hC : 0 < C) :
    n ≤ C * ((n + C - 1) / C) := by
  have h1 := Nat.div_add_mod (n + C - 1) C
  have h2 : (n + C - 1) % C < C := Nat.mod_lt _ hC
  set m := C * ((n + C - 1) / C) with hm
  omega

/-- The key inequality of the chunk calculation: with
`q = max 1 ⌈n / C⌉` commands per line, at most `C` lines arise, so the
correction loop of lines 88–93 never runs. -/
theorem ceil_div_chunk_le (C n : Nat) (hC : 0 < C) :
    (n + max 1 ((n + C - 1) / C) - 1) / max 1 ((n + C - 1) / C) ≤ C := by
  set q := max 1 ((n + C - 1) / C) with hq
  have hq1 : 0 < q := lt_of_lt_of_le Nat.zero_lt_one (le_max_left _ _)
  rcases Nat.eq_zero_or_pos n with hn | hn
  · subst hn
    have : (0 + q - 1) / q = 0 := Nat.div_eq_of_lt (by omega)
    omega
  · have hqe : q = (n + C - 1) / C := by
      rw [hq]
      exact max_eq_right ((Nat.one_le_div_iff hC).mpr (by omega))
    have hbound : n ≤ C * q := by
      rw [hqe]
      exact le_mul_ceil_div C n hC
    have hlt : (n + q - 1) / q < C + 1 := by
      rw [Nat.div_lt_iff_lt_mul hq1, Nat.succ_mul]
      set m := C * q with hm
      omega
    omega

/-- With a positive job ceiling the correction loop exits at once, so
`commands_per_job` is just `max 1 ⌈total / maxJobs⌉`. -/
theorem chunkCommandsPerJob_eq (total maxJobs : Nat) (hC : 0 < maxJobs) :
    chunkCommandsPerJob total maxJobs = max 1 ((total + maxJobs - 1) / maxJobs) :=
  chunkLoop_eq_self (Nat.not_lt.mpr (ceil_div_chunk_le maxJobs total hC)) 100

/-- With a positive job ceiling, `actual_jobs` is exactly the ceiling of
`total / commands_per_job`, and the `min` on line 99 does not clip. -/
theorem chunkActualJobs_eq (total maxJobs : Nat) (hC : 0 < maxJobs) :
    chunkActualJobs total maxJobs =
      (total + chunkCommandsPerJob total maxJobs - 1) /
        chunkCommandsPerJob total maxJobs := by
  unfold chunkActualJobs
  rw [chunkCommandsPerJob_eq total maxJobs hC]
  exact min_eq_right (ceil_div_chunk_le maxJobs total hC)

theorem chunkActualJobs_le (total maxJobs : Nat) :
    chunkActualJobs total maxJobs ≤ maxJobs :=
  Nat.min_le_left _ _

/-- The error branch of lines 107–110 is dead: `actual_jobs` is clipped
to `max_jobs` on line 99, so the chunker always reaches the writing
loop. -/
theorem generate_chunked_task_file_eq (files : List String)
    (gz : String → Bool) (maxJobs : Nat) :
    generate_chunked_task_file files gz maxJobs =
      { taskChunks := lineChunks gz
          (chunksOf (chunkCommandsPerJob files.length maxJobs) files)
        renderedLines := (lineChunks gz
          (chunksOf (chunkCommandsPerJob files.length maxJobs) files)).map
            fun e => String.intercalate "; " (e.map gzipCommand)
        skippedAlreadyCompressed :=
          (files.filter fun p => strEndsWith p ".gz").length
        skippedExistingGz :=
          (files.filter fun p => !(strEndsWith p ".gz") && gz (p ++ ".gz")).length
        skippedMessages :=
          (files.filter fun p => !(strEndsWith p ".gz") && gz (p ++ ".gz")).map
            fun p => "file " ++ p ++ " skipped because " ++ p ++
              ".gz already exists"
        actualJobs := chunkActualJobs files.length maxJobs
        commandsPerJob := chunkCommandsPerJob files.length maxJobs } := by
  unfold generate_chunked_task_file
  rw [if_neg (Nat.not_lt.mpr (chunkActualJobs_le files.length maxJobs))]

/-! ## Structure of the written lines -/

/-- Dropping the empty slices does not change the paths that reach the
task file. -/
theorem flatten_lineChunks (gz : String → Bool) (chunks : List (List String)) :
    (lineChunks gz chunks).flatten =
      (chunks.map fun c => c.filter (eligibleB gz)).flatten := by
  induction chunks with
  | nil => rfl
  | cons c chunks ih =>
    simp only [lineChunks, List.filterMap_cons, List.map_cons, List.flatten_cons]
    by_cases h : (c.filter (eligibleB gz)).isEmpty
    · simp only [h, if_pos]
      rw [List.isEmpty_iff.mp h]
      simpa [lineChunks] using ih
    · simp only [h, if_neg, Bool.false_eq_true, not_false_iff, List.flatten_cons]
      simp only [lineChunks] at ih
      rw [ih]

/-- A written line is some slice's eligible paths, and is never empty. -/
theorem mem_lineChunks (gz : String → Bool) (chunks : List (List String))
    (e : List String) (he : e ∈ lineChunks gz chunks) :
    e ≠ [] ∧ ∃ c ∈ chunks, e = c.filter (eligibleB gz) := by
  rcases List.mem_filterMap.mp he with ⟨c, hc, hsome⟩
  simp only at hsome
  by_cases h : (c.filter (eligibleB gz)).isEmpty
  · rw [if_pos h] at hsome; cases hsome
  · rw [if_neg h] at hsome
    refine ⟨?_, c, hc, (Option.some.injEq _ _ ▸ hsome).symm⟩
    intro hnil
    cases hsome
    exact h (by simp [List.isEmpty_iff, hnil])

theorem length_lineChunks_le (gz : String → Bool)
    (chunks : List (List String)) :
    (lineChunks gz chunks).length ≤ chunks.length :=
  List.length_filterMap_le _ _

/-- When every slice keeps at least one eligible path, no line is
dropped. -/
theorem length_lineChunks_of_all (gz : String → Bool)
    (chunks : List (List String))
    (h : ∀ c ∈ chunks, ¬ (c.filter (eligibleB gz)).isEmpty = true) :
    (lineChunks gz chunks).length = chunks.length := by
  induction chunks with
  | nil => rfl
  | cons c chunks ih =>
    simp only [lineChunks, List.filterMap_cons]
    rw [if_neg (h c (List.mem_cons_self c chunks))]
    simp only [List.length_cons]
    have := ih fun c hc => h c (List.mem_cons_of_mem _ hc)
    simp only [lineChunks] at this
    rw [this]

/-! ## Rendered-line facts -/

/-- The accumulator of `String.intercalate.go` only ever grows. -/
theorem intercalate_go_length_le (s : String) : ∀ (as : List String)
    (acc : String), acc.length ≤ (String.intercalate.go acc s as).length
  | [], _ => le_rfl
  | a :: as, acc => by
    rw [String.intercalate.go]
    calc acc.length ≤ (acc ++ s ++ a).length := by
          simp only [String.length_append]; omega
      _ ≤ _ := intercalate_go_length_le s as (acc ++ s ++ a)

theorem gzipCommand_length (p : String) :
    (gzipCommand p).length = p.length + 7 := by
  have h6 : ("gzip '" : String).length = 6 := rfl
  have h1 : ("'" : String).length = 1 := rfl
  simp only [gzipCommand, String.length_append, h6, h1]
  omega

/-- A nonempty command list renders to a nonempty line: the task file
holds no blank lines. -/
theorem rendered_line_ne_empty (e : List String) (he : e ≠ []) :
    String.intercalate "; " (e.map gzipCommand) ≠ "" := by
  match e, he with
  | p :: rest, _ =>
    intro hcontra
    have hpos : 0 < (String.intercalate "; " (gzipCommand p :: rest.map gzipCommand)).length := by
      rw [String.intercalate]
      refine lt_of_lt_of_le ?_ (intercalate_go_length_le "; " (rest.map gzipCommand) (gzipCommand p))
      rw [gzipCommand_length]
      omega
    rw [List.map_cons] at hcontra
    rw [hcontra] at hpos
    exact absurd hpos (by decide)

/-! ## Claims -/

/-- C1: for every file list of size n and ceiling C with n > C, the chunker
computes `commands_per_line = ceil(n / C)` and `actual_lines =
ceil(n / commands_per_line) ≤ C`; the written line count never exceeds
that, and equals it when no file is skip-eligible (as in the 1200-file
scenario, see the witness). -/
theorem C1_chunker_respects_ceiling (files : List String)
    (gz : String → Bool) (C : Nat) (hC : 0 < C) (hn : C < files.length) :
    (generate_chunked_task_file files gz C).commandsPerJob
        = (files.length + C - 1) / C ∧
    (generate_chunked_task_file files gz C).actualJobs
        = (files.length + (generate_chunked_task_file files gz C).commandsPerJob - 1)
            / (generate_chunked_task_file files gz C).commandsPerJob ∧
    (generate_chunked_task_file files gz C).actualJobs ≤ C ∧
    (generate_chunked_task_file files gz C).renderedLines.length
        ≤ (generate_chunked_task_file files gz C).actualJobs ∧
    ((∀ p ∈ files, eligibleB gz p = true) →
      (generate_chunked_task_file files gz C).renderedLines.length
        = (generate_chunked_task_file files gz C).actualJobs) := by
  have hq1 : 1 ≤ (files.length + C - 1) / C :=
    (Nat.one_le_div_iff hC).mpr (by omega)
  have hcpj : (generate_chunked_task_file files gz C).commandsPerJob
      = (files.length + C - 1) / C := by
    rw [generate_chunked_task_file_eq]
    exact (chunkCommandsPerJob_eq files.length C hC).trans (max_eq_right hq1)
  have hcpj0 : 0 < (generate_chunked_task_file files gz C).commandsPerJob := by
    rw [hcpj]; omega
  have hjobs : (generate_chunked_task_file files gz C).actualJobs
      = (files.length + (generate_chunked_task_file files gz C).commandsPerJob - 1)
          / (generate_chunked_task_file files gz C).commandsPerJob := by
    conv_lhs => rw [generate_chunked_task_file_eq]
    show chunkActualJobs files.length C = _
    rw [chunkActualJobs_eq files.length C hC]
    congr 2 <;>
      · conv_rhs => rw [generate_chunked_task_file_eq]
  have hle : (generate_chunked_task_file files gz C).actualJobs ≤ C := by
    rw [generate_chunked_task_file_eq]
    exact chunkActualJobs_le files.length C
  have hchunkslen : (chunksOf (generate_chunked_task_file files gz C).commandsPerJob files).length
      = (generate_chunked_task_file files gz C).actualJobs := by
    rw [length_chunksOf _ hcpj0 files, hjobs]
  have hlines : (generate_chunked_task_file files gz C).renderedLines.length
      = (lineChunks gz (chunksOf (generate_chunked_task_file files gz C).commandsPerJob files)).length := by
    conv_lhs => rw [generate_chunked_task_file_eq]
    rw [List.length_map]
    congr 2
    conv_rhs => rw [generate_chunked_task_file_eq]
  refine ⟨hcpj, hjobs, hle, ?_, ?_⟩
  · rw [hlines, ← hchunkslen]
    exact length_lineChunks_le _ _
  · intro hall
    rw [hlines, ← hchunkslen]
    apply length_lineChunks_of_all
    intro c hc
    have hsub : ∀ a ∈ c, a ∈ files := by
      intro a ha
      rw [← join_chunksOf _ hcpj0 files]
      exact List.mem_flatten_of_mem hc ha
    have hfe : c.filter (eligibleB gz) = c :=
      List.filter_eq_self.mpr fun a ha => hall a (hsub a ha)
    rw [hfe]
    simp only [List.isEmpty_iff]
    exact (mem_chunksOf _ hcpj0 files c hc).1

/-- C1 witness: 1200 files, ceiling 1000 — `commands_per_line = 2`,
600 task-file lines, within the ceiling. -/
theorem C1_chunker_respects_ceiling_witness :
    (generate_chunked_task_file (List.replicate 1200 "a") (fun _ => false) 1000).commandsPerJob = 2 ∧
    (generate_chunked_task_file (List.replicate 1200 "a") (fun _ => false) 1000).actualJobs = 600 ∧
    (generate_chunked_task_file (List.replicate 1200 "a") (fun _ => false) 1000).renderedLines.length = 600 ∧
    (generate_chunked_task_file (List.replicate 1200 "a") (fun _ => false) 1000).actualJobs ≤ 1000 := by
  obtain ⟨h1, h2, h3, h4, h5⟩ :=
    C1_chunker_respects_ceiling (List.replicate 1200 "a") (fun _ => false) 1000
      (by omega) (by rw [List.length_replicate]; omega)
  rw [List.length_replicate] at h1 h2
  have e1 : (1200 + 1000 - 1) / 1000 = 2 := by norm_num
  rw [e1] at h1
  rw [h1] at h2
  have e2 : (1200 + 2 - 1) / 2 = 600 := by norm_num
  rw [e2] at h2
  have hel : ∀ p ∈ List.replicate 1200 "a",
      eligibleB (fun _ => false) p = true := by
    intro p hp
    rw [List.eq_of_mem_replicate hp]
    decide
  have h6 := h5 hel
  exact ⟨h1, h2, h6.trans h2, h3⟩

/-- C2 counterexample: seven files of which three are already `.gz`, with
ceiling 2. The code computes `commands_per_line` from the raw count 7
(giving 4), not from the eligible count 4 (which would give 2), and the
first emitted line carries a single command although it is not the last
line. -/
theorem C2_prefilter_counterexample :
    (generate_chunked_task_file ["a.gz", "b.gz", "c.gz", "b", "c", "d", "e"]
        (fun _ => false) 2).commandsPerJob = 4 ∧
    (((["a.gz", "b.gz", "c.gz", "b", "c", "d", "e"] : List String).filter
        fun p => !(strEndsWith p ".gz")).length + 2 - 1) / 2 = 2 ∧
    (generate_chunked_task_file ["a.gz", "b.gz", "c.gz", "b", "c", "d", "e"]
        (fun _ => false) 2).taskChunks = [["b"], ["c", "d", "e"]] := by
  decide

/-- What the chunker actually guarantees (C2 amended): `commands_per_line`
comes from the raw input count; the raw list is cut into consecutive
groups of that size (last group possibly shorter); eligibility filtering
happens inside each group while writing, so a non-final line may carry
fewer than `commands_per_line` commands, and a fully skipped group writes
no line. -/
def ChunkedPartitionSpec (files : List String) (gz : String → Bool)
    (C : Nat) : Prop :=
  (generate_chunked_task_file files gz C).commandsPerJob
      = max 1 ((files.length + C - 1) / C) ∧
  ∃ groups : List (List String),
    groups.flatten = files ∧
    (∀ g ∈ groups, g ≠ [] ∧
      g.length ≤ (generate_chunked_task_file files gz C).commandsPerJob) ∧
    (∀ pre g suf, groups = pre ++ g :: suf → suf ≠ [] →
      g.length = (generate_chunked_task_file files gz C).commandsPerJob) ∧
    (generate_chunked_task_file files gz C).taskChunks = lineChunks gz groups ∧
    (generate_chunked_task_file files gz C).renderedLines
      = (generate_chunked_task_file files gz C).taskChunks.map
          fun e => String.intercalate "; " (e.map gzipCommand)

/-- C2 amended: the chunker partitions the raw file list in original
order into consecutive groups of `commands_per_line =
max(1, ceil(total / C))` files (last group possibly shorter), and each
group's line is its eligible files' commands; filtering is applied during
writing, not before chunking. -/
theorem C2_filtering_inside_chunks (files : List String)
    (gz : String → Bool) (C : Nat) (hC : 0 < C) :
    ChunkedPartitionSpec files gz C := by
  have hcpj : (generate_chunked_task_file files gz C).commandsPerJob
      = chunkCommandsPerJob files.length C := by
    rw [generate_chunked_task_file_eq]
  have hpos : 0 < chunkCommandsPerJob files.length C :=
    chunkCommandsPerJob_pos files.length C
  refine ⟨hcpj.trans (chunkCommandsPerJob_eq files.length C hC),
    chunksOf (chunkCommandsPerJob files.length C) files,
    join_chunksOf _ hpos files, ?_, ?_, ?_, ?_⟩
  · intro g hg
    have := mem_chunksOf _ hpos files g hg
    exact ⟨this.1, hcpj ▸ this.2⟩
  · intro pre g suf hsplit hsuf
    rw [hcpj]
    exact chunksOf_full _ hpos files pre g suf hsplit hsuf
  · rw [generate_chunked_task_file_eq]
  · rw [generate_chunked_task_file_eq]

/-- C2 amended witness: a concrete three-file list with one self-skip,
ceiling 2. -/
theorem C2_filtering_inside_chunks_witness :
    ChunkedPartitionSpec ["x.gz", "y", "z"] (fun _ => false) 2 :=
  C2_filtering_inside_chunks ["x.gz", "y", "z"] (fun _ => false) 2 (by omega)

/-- Filtering with an `if`-guarded `filterMap` is filtering then
mapping. -/
theorem filterMap_guard_eq (P : α → Bool) (f : α → β) (l : List α) :
    l.filterMap (fun a => if P a then some (f a) else none)
      = (l.filter P).map f := by
  induction l with
  | nil => rfl
  | cons a t ih =>
    simp only [List.filterMap_cons, List.filter_cons]
    by_cases h : P a <;> simp [h, ih]

/-- A Boolean predicate splits a list's length into the part that
satisfies it and the part that does not. -/
theorem length_filter_not_add (P : α → Bool) (l : List α) :
    (l.filter P).length + (l.filter fun a => !(P a)).length = l.length := by
  induction l with
  | nil => rfl
  | cons a t ih =>
    simp only [List.filter_cons]
    by_cases h : P a <;> simp [h] <;> omega

/-- C3 (code bug): the emitter derives the `--array` span from the input
file list, not from the on-disk task file. Four eligible input files
chunked under ceiling 2 yield a 2-line task file, yet the script says
`--array=1-4`. -/
theorem C3_array_size_from_input_list_eval :
    slurmArraySize ["a", "b", "c", "d"] = 4 ∧
    taskFileLineCount
      (generate_chunked_task_file ["a", "b", "c", "d"]
        (fun _ => false) 2).renderedLines = 2 ∧
    (slurmScriptDirectives ["a", "b", "c", "d"] noSlurmArgs).contains
      "#SBATCH --array=1-4" = true ∧
    ¬ (4 = 2) := by
  decide

/-- C4 counterexample: with no parameter supplied, the emitter's defaults
are `cpus-per-task=4` and `mem-per-cpu=2G`, not the claimed `1` and
`1G`. -/
theorem C4_defaults_counterexample :
    (applySlurmArgs slurmDefaults noSlurmArgs).cpus_per_task = "4" ∧
    (applySlurmArgs slurmDefaults noSlurmArgs).mem_per_cpu = "2G" ∧
    ¬ ((applySlurmArgs slurmDefaults noSlurmArgs).cpus_per_task = "1" ∧
       (applySlurmArgs slurmDefaults noSlurmArgs).mem_per_cpu = "1G") := by
  decide

/-- The default/override contract of the emitter (C4 amended): each unset
parameter takes its default — partition `short`, ntasks `1`,
cpus-per-task `4`, mem-per-cpu `2G`, time `02:00:00`, and the distinct
stdout/stderr templates — and each supplied value overrides it. -/
def SlurmDefaultsSpec (a : SlurmArgs) : Prop :=
  (a.partition = none → (applySlurmArgs slurmDefaults a).partition = "short") ∧
  (∀ v, a.partition = some v → (applySlurmArgs slurmDefaults a).partition = v) ∧
  (a.ntasks = none → (applySlurmArgs slurmDefaults a).ntasks = "1") ∧
  (∀ v, a.ntasks = some v → (applySlurmArgs slurmDefaults a).ntasks = v) ∧
  (a.cpus_per_task = none →
    (applySlurmArgs slurmDefaults a).cpus_per_task = "4") ∧
  (∀ v, a.cpus_per_task = some v →
    (applySlurmArgs slurmDefaults a).cpus_per_task = v) ∧
  (a.mem_per_cpu = none → (applySlurmArgs slurmDefaults a).mem_per_cpu = "2G") ∧
  (∀ v, a.mem_per_cpu = some v →
    (applySlurmArgs slurmDefaults a).mem_per_cpu = v) ∧
  (a.time = none → (applySlurmArgs slurmDefaults a).time = "02:00:00") ∧
  (∀ v, a.time = some v → (applySlurmArgs slurmDefaults a).time = v) ∧
  (a.output = none →
    (applySlurmArgs slurmDefaults a).output = "gzip_%A_%a.out") ∧
  (∀ v, a.output = some v → (applySlurmArgs slurmDefaults a).output = v) ∧
  (a.error = none →
    (applySlurmArgs slurmDefaults a).error = "gzip_%A_%a.err") ∧
  (∀ v, a.error = some v → (applySlurmArgs slurmDefaults a).error = v)

/-- C4 amended: defaults fill every unset parameter (`partition=short`,
`ntasks=1`, `cpus-per-task=4`, `mem-per-cpu=2G`, `time=02:00:00`,
distinct stdout/stderr templates), and user-supplied values override
them. The `mem` convenience key, which is converted with Python float
arithmetic, is assumed unset. -/
theorem C4_defaults_and_overrides (a : SlurmArgs) (hmem : a.mem = none) :
    SlurmDefaultsSpec a ∧ slurmDefaults.output ≠ slurmDefaults.error := by
  refine ⟨⟨?_, ?_, ?_, ?_, ?_, ?_, ?_, ?_, ?_, ?_, ?_, ?_, ?_, ?_⟩, by decide⟩
  all_goals first
    | (intro h; simp [applySlurmArgs, h, slurmDefaults])
    | (intro v h; simp [applySlurmArgs, h])

/-- C4 witness: one supplied parameter (`partition=long`) with everything
else unset. -/
theorem C4_defaults_and_overrides_witness :
    SlurmDefaultsSpec { noSlurmArgs with partition := some "long" } ∧
      slurmDefaults.output ≠ slurmDefaults.error :=
  C4_defaults_and_overrides { noSlurmArgs with partition := some "long" } rfl

/-- What each run writes into the task file (C5): the paths reaching the
file are exactly the eligible input paths in order — a subset of the
input, duplicate-free when the input is, with no skip-eligible path —
and each line is its chunk's commands joined by `"; "`; the non-chunked
writer emits the same commands one per line. -/
def RoundTripSpec (files : List String) (gz : String → Bool) (C : Nat) :
    Prop :=
  (generate_chunked_task_file files gz C).taskChunks.flatten
      = files.filter (eligibleB gz) ∧
  (∀ p ∈ (generate_chunked_task_file files gz C).taskChunks.flatten,
    p ∈ files) ∧
  (generate_chunked_task_file files gz C).taskChunks.flatten.Nodup ∧
  (∀ p ∈ (generate_chunked_task_file files gz C).taskChunks.flatten,
    strEndsWith p ".gz" = false ∧ gz (p ++ ".gz") = false) ∧
  (generate_chunked_task_file files gz C).renderedLines
      = (generate_chunked_task_file files gz C).taskChunks.map
          (fun e => String.intercalate "; " (e.map gzipCommand)) ∧
  generate_task_file_lines files gz
      = (files.filter (eligibleB gz)).map gzipCommand

/-- C5: task-file round-trip — referenced paths are a subset of the
input, no path appears twice across lines, and no skip-eligible path
appears. -/
theorem C5_task_file_roundtrip (files : List String) (gz : String → Bool)
    (C : Nat) (hnd : files.Nodup) : RoundTripSpec files gz C := by
  have hpos : 0 < chunkCommandsPerJob files.length C :=
    chunkCommandsPerJob_pos files.length C
  have hflat : (generate_chunked_task_file files gz C).taskChunks.flatten
      = files.filter (eligibleB gz) := by
    rw [generate_chunked_task_file_eq]
    show (lineChunks gz (chunksOf (chunkCommandsPerJob files.length C)
      files)).flatten = _
    rw [flatten_lineChunks, ← List.filter_flatten, join_chunksOf _ hpos files]
  refine ⟨hflat, ?_, ?_, ?_, ?_, ?_⟩
  · intro p hp
    rw [hflat] at hp
    exact (List.mem_filter.mp hp).1
  · rw [hflat]
    exact hnd.filter _
  · intro p hp
    rw [hflat] at hp
    have := (List.mem_filter.mp hp).2
    simpa [eligibleB, Bool.and_eq_true, Bool.not_eq_true'] using this
  · rw [generate_chunked_task_file_eq]
  · exact filterMap_guard_eq (eligibleB gz) gzipCommand files

/-- C5 witness: two distinct eligible files, ceiling 5. -/
theorem C5_task_file_roundtrip_witness :
    RoundTripSpec ["a.txt", "b.txt"] (fun _ => false) 5 :=
  C5_task_file_roundtrip ["a.txt", "b.txt"] (fun _ => false) 5 (by decide)

/-- The failure set of the validator loop: it errors exactly when some
input suffix normalizes into the compressed-format set, whatever has been
accumulated so far. -/
theorem validateSuffixesGo_isOk : ∀ (l acc : List String),
    (validateSuffixesGo l acc).isOk = true ↔
      ∀ s ∈ l, ¬(normalizeSuffix s ∈ compressionFormats)
  | [], acc => by simp [validateSuffixesGo, Except.isOk, Except.toBool]
  | s :: rest, acc => by
    simp only [validateSuffixesGo]
    by_cases h1 : normalizeSuffix s = ".gz"
    · rw [if_pos h1]
      simp only [Except.isOk, Except.toBool, Bool.false_eq_true, false_iff]
      intro hall
      apply hall s (List.mem_cons_self s rest)
      rw [h1]
      decide
    · rw [if_neg h1]
      by_cases h2 : compressionFormats.contains (normalizeSuffix s) = true
      · rw [if_pos h2]
        simp only [Except.isOk, Except.toBool, Bool.false_eq_true, false_iff]
        intro hall
        exact hall s (List.mem_cons_self s rest)
          (by simpa [List.contains] using h2)
      · rw [if_neg h2]
        rw [validateSuffixesGo_isOk rest
          (if acc.contains (normalizeSuffix s) then acc
           else acc ++ [normalizeSuffix s])]
        constructor
        · intro h t ht
          rcases List.mem_cons.mp ht with rfl | ht
          · intro hmem
            exact h2 (by simpa [List.contains] using hmem)
          · exact h t ht
        · intro h t ht
          exact h t (List.mem_cons_of_mem s ht)

/-- C6: the validator fails iff some input suffix, dot-prefixed when the
dot is missing, is `.gz` or lies in the compressed-format set; it rejects
each of the nine listed suffixes; and `validate([".txt"]) ==
validate(["txt"])`. -/
theorem C6_suffix_validator :
    (∀ l : List String, (validate_suffixes l).isOk = false ↔
        ∃ s ∈ l, normalizeSuffix s = ".gz" ∨
          normalizeSuffix s ∈ compressionFormats) ∧
    (∀ s ∈ (["gz", ".gz", "bz2", ".bz2", "xz", "zip", "tar", "7z",
        "rar"] : List String), (validate_suffixes [s]).isOk = false) ∧
    validate_suffixes [".txt"] = validate_suffixes ["txt"] := by
  refine ⟨?_, by decide, rfl⟩
  intro l
  rw [Bool.eq_false_iff, ne_eq, validate_suffixes, validateSuffixesGo_isOk]
  constructor
  · intro h
    push_neg at h
    obtain ⟨s, hs, hmem⟩ := h
    exact ⟨s, hs, Or.inr hmem⟩
  · rintro ⟨s, hs, hor⟩ hall
    apply hall s hs
    rcases hor with h | h
    · rw [h]; decide
    · exact h

/-- The two branches of `execute_gzip_local` produce the same counter
shape: the early return for an empty dispatch list is the general formula
at `uncompressed = []`. -/
theorem execute_gzip_local_eq (files : List String)
    (gzipOk : String → Bool) (gzipErr : String → String)
    (numThreads : Int) (cpuCount : Nat) :
    execute_gzip_local files gzipOk gzipErr numThreads cpuCount =
      { total := files.length
        compressed :=
          ((files.filter fun f => !(strEndsWith f ".gz")).filter gzipOk).length
        skipped := files.length -
          (files.filter fun f => !(strEndsWith f ".gz")).length
        errors := ((files.filter fun f => !(strEndsWith f ".gz")).filter
          fun f => !(gzipOk f)).length
        error_files := ((files.filter fun f => !(strEndsWith f ".gz")).filter
          fun f => !(gzipOk f)).map fun f => (f, gzipErr f) } := by
  unfold execute_gzip_local
  by_cases h : (files.filter fun f => !(strEndsWith f ".gz")).isEmpty
  · rw [if_pos h]
    have hnil : (files.filter fun f => !(strEndsWith f ".gz")) = [] :=
      List.isEmpty_iff.mp h
    rw [hnil]
    simp
  · rw [if_neg h]

/-- C7: the local executor's counters always partition the input:
`compressed + skipped + errors = total`, where `skipped` counts the
already-`.gz` files filtered out before dispatch and every dispatched
file lands in exactly one of `compressed` or `errors`. -/
theorem C7_local_executor_counts (files : List String)
    (gzipOk : String → Bool) (gzipErr : String → String)
    (numThreads : Int) (cpuCount : Nat) :
    (execute_gzip_local files gzipOk gzipErr numThreads cpuCount).compressed +
        (execute_gzip_local files gzipOk gzipErr numThreads cpuCount).skipped +
        (execute_gzip_local files gzipOk gzipErr numThreads cpuCount).errors
      = (execute_gzip_local files gzipOk gzipErr numThreads cpuCount).total ∧
    (execute_gzip_local files gzipOk gzipErr numThreads cpuCount).total
      = files.length ∧
    (execute_gzip_local files gzipOk gzipErr numThreads cpuCount).skipped
      = (files.filter fun f => strEndsWith f ".gz").length ∧
    (execute_gzip_local files gzipOk gzipErr numThreads cpuCount).compressed +
        (execute_gzip_local files gzipOk gzipErr numThreads cpuCount).errors
      = (files.filter fun f => !(strEndsWith f ".gz")).length := by
  have hsplit := length_filter_not_add (fun f => strEndsWith f ".gz") files
  have hok := length_filter_not_add gzipOk
    (files.filter fun f => !(strEndsWith f ".gz"))
  have hle : (files.filter fun f => !(strEndsWith f ".gz")).length
      ≤ files.length := List.length_filter_le _ _
  rw [execute_gzip_local_eq]
  dsimp only
  refine ⟨by omega, rfl, by omega, by omega⟩

/-- The collision contract of `main` (C8): when the output task-file path
exists at run start, or `--slurm` is set and `gzip_slurm.sh` exists, the
run ends with exit code 1 having written nothing (the pre-existing file
is untouched). -/
def CollisionGuardSpec (files : List String) (fsEx : String → Bool)
    (slurm : Bool) (output : String) : Prop :=
  (fsEx output = true →
    (main_output_guard files fsEx slurm output).exitCode = some 1 ∧
    (main_output_guard files fsEx slurm output).writes = []) ∧
  (slurm = true → fsEx "gzip_slurm.sh" = true →
    (main_output_guard files fsEx slurm output).exitCode = some 1 ∧
    (main_output_guard files fsEx slurm output).writes = [])

/-- C8: for a run whose scan found files, an existing output task file
(or, with `--slurm`, an existing `gzip_slurm.sh`) aborts the run with
exit 1 before any write. (A scan with no files exits 0 earlier without
writing either.) -/
theorem C8_collision_aborts_before_writing (files : List String)
    (fsEx : String → Bool) (slurm : Bool) (output : String)
    (hf : files ≠ []) : CollisionGuardSpec files fsEx slurm output := by
  have hne : files.isEmpty = false := by simp [List.isEmpty_iff, hf]
  constructor
  · intro h
    constructor <;> simp [main_output_guard, hne, h]
  · intro hs hgz
    by_cases h : fsEx output
    · constructor <;> simp [main_output_guard, hne, h]
    · constructor <;> simp [main_output_guard, hne, h, hs, hgz]

/-- C8 witness: one found file, both colliding paths present. -/
theorem C8_collision_aborts_before_writing_witness :
    CollisionGuardSpec ["f.txt"] (fun _ => true) true "gzip.cmds" :=
  C8_collision_aborts_before_writing ["f.txt"] (fun _ => true) true
    "gzip.cmds" (by simp)

/-- C9: every line the chunker writes carries at least one command — a
slice whose files are all skip-eligible writes no line, never a blank
one — and consequently the written line count can be strictly below the
job count the function returns, as the four-file example shows. -/
theorem C9_no_empty_lines :
    (∀ (files : List String) (gz : String → Bool) (C : Nat),
      (∀ e ∈ (generate_chunked_task_file files gz C).taskChunks, e ≠ []) ∧
      (∀ s ∈ (generate_chunked_task_file files gz C).renderedLines,
        s ≠ "")) ∧
    (generate_chunked_task_file ["a.gz", "b.gz", "c", "d"]
        (fun _ => false) 2).renderedLines.length
      < (generate_chunked_task_file ["a.gz", "b.gz", "c", "d"]
          (fun _ => false) 2).actualJobs := by
  constructor
  · intro files gz C
    constructor
    · intro e he
      rw [generate_chunked_task_file_eq] at he
      exact (mem_lineChunks gz _ e he).1
    · intro s hs
      rw [generate_chunked_task_file_eq] at hs
      rcases List.mem_map.mp hs with ⟨e, he, rfl⟩
      exact rendered_line_ne_empty e (mem_lineChunks gz _ e he).1
  · decide

/-- C10: the command emitted for an eligible path `p` is exactly
`gzip 'p'` — the path interpolated between single quotes with no
escaping — in both the plain and the chunked writer. -/
theorem C10_command_no_escaping (p : String) (gz : String → Bool)
    (h1 : strEndsWith p ".gz" = false) (h2 : gz (p ++ ".gz") = false) :
    gzipCommand p = "gzip '" ++ p ++ "'" ∧
    generate_task_file_lines [p] gz = ["gzip '" ++ p ++ "'"] ∧
    (generate_chunked_task_file [p] gz 1).renderedLines
      = ["gzip '" ++ p ++ "'"] := by
  have helig : eligibleB gz p = true := by simp [eligibleB, h1, h2]
  refine ⟨rfl, ?_, ?_⟩
  · simp [generate_task_file_lines, helig, gzipCommand]
  · rw [generate_chunked_task_file_eq]
    have hlen : ([p] : List String).length = 1 := rfl
    rw [hlen]
    have hcpj : chunkCommandsPerJob 1 1 = 1 := by decide
    rw [hcpj]
    have hchunks : chunksOf 1 [p] = [[p]] := rfl
    rw [hchunks]
    simp only [lineChunks, List.filterMap_cons, List.filterMap_nil,
      List.filter_cons, helig, if_pos, List.filter_nil]
    simp only [gzipCommand, String.intercalate]
    rfl

/-- C10 witness: a path with spaces and a single quote inside it is
interpolated verbatim. -/
theorem C10_command_no_escaping_witness :
    generate_task_file_lines ["my dir/f 'x'.txt"] (fun _ => false)
        = ["gzip 'my dir/f 'x'.txt'"] ∧
    (generate_chunked_task_file ["my dir/f 'x'.txt"] (fun _ => false)
        1).renderedLines = ["gzip 'my dir/f 'x'.txt'"] := by
  obtain ⟨h1, h2, h3⟩ := C10_command_no_escaping "my dir/f 'x'.txt"
    (fun _ => false) (by decide) rfl
  refine ⟨h2.trans (by decide), h3.trans (by decide)⟩

end GzipUp
